import Mathlib

/-!
Verification development for the BMET9922 wearable-PPG dashboard repository.

The repository's streaming core (line parsing, windowed time buffers, the
no-data watchdog, the alarm evaluator, and the loss/latency accumulators) is
shallowly embedded below.  Host and device timestamps, BPM values and sample
amplitudes are modelled as rationals (the Python code uses floats; all of the
arithmetic the claims exercise - subtraction, comparison, division by
constants - is exact in the inputs considered).  Python `deque` pairs are
modelled as pairs of Lean lists, appended at the tail and popped at the head,
mirroring the source's parallel-deque layout.  `json.loads` is an external
primitive of the source; parsers take it as an explicit function parameter
`jload : String -> Option JVal`.  Python's `float()` is modelled by `pyFloat`,
which covers plain decimal literals (optional sign, digits, one decimal
point); exponent forms, `inf`/`nan` and underscores are outside the model.
-/

/-- A decoded JSON value, the result type of the `json.loads` primitive used
by the repository's line parsers. -/
inductive JVal where
  | jnull : JVal
  | jbool (b : Bool) : JVal
  | jnum (q : ℚ) : JVal
  | jstr (s : String) : JVal
  | jarr (elems : List JVal) : JVal
  | jobj (fields : List (String × JVal)) : JVal

/-- Dictionary lookup, modelling `obj[k]` / `obj.get(k)` on a decoded JSON
object. -/
def jGet (fs : List (String × JVal)) (k : String) : Option JVal :=
  (fs.find? (fun p => p.1 == k)).map (·.2)

/-- Numeric value of a decimal digit character. -/
def digitVal (c : Char) : ℕ := c.toNat - 48

/-- Fractional digits after the decimal point: `parseFracDigits ['2','5']`
is `1/4`.  Fails on any non-digit. -/
def parseFracDigits : List Char → Option ℚ
  | [] => some 0
  | c :: cs =>
    if c.isDigit then (parseFracDigits cs).map (fun r => ((digitVal c : ℚ) + r) / 10)
    else none

/-- Unsigned decimal literal: integer digits, optionally followed by `.` and
fractional digits.  `seen` records whether a digit has been consumed, `acc`
the integer part so far; a bare `.` with no digit on either side fails, as in
Python. -/
def parseUnsigned : List Char → Bool → ℕ → Option ℚ
  | [], seen, acc => if seen then some (acc : ℚ) else none
  | '.' :: cs, seen, acc =>
    match parseFracDigits cs with
    | none => none
    | some f => if seen || !cs.isEmpty then some ((acc : ℚ) + f) else none
  | c :: cs, _, acc =>
    if c.isDigit then parseUnsigned cs true (10 * acc + digitVal c) else none

/-- Characters of a string with surrounding whitespace removed, modelling
Python `str.strip()`. -/
def stripChars (cs : List Char) : List Char :=
  ((cs.dropWhile Char.isWhitespace).reverse.dropWhile Char.isWhitespace).reverse

/-- Model of Python `float(s)` on plain decimal literals: optional
surrounding whitespace, optional sign, digits with at most one decimal
point.  Returns `none` where Python raises `ValueError` (and, conservatively,
on exponent/`inf`/`nan` forms, which the repository's line formats do not
use). -/
def pyFloat (s : String) : Option ℚ :=
  match stripChars s.toList with
  | '-' :: cs => (parseUnsigned cs false 0).map Neg.neg
  | '+' :: cs => parseUnsigned cs false 0
  | cs => parseUnsigned cs false 0

/-- Truncation toward zero, modelling Python `int()` applied to a float. -/
def ratTrunc (q : ℚ) : ℤ := Int.tdiv q.num q.den

/-- Model of Python `int(s)` on strings: optional whitespace and sign, then
decimal digits only. -/
def pyIntStr (s : String) : Option ℤ :=
  let core : List Char → Option ℤ := fun cs =>
    if !cs.isEmpty && cs.all Char.isDigit then
      some ((cs.foldl (fun a c => 10 * a + digitVal c) 0 : ℕ) : ℤ)
    else none
  match stripChars s.toList with
  | '-' :: cs => (core cs).map Neg.neg
  | '+' :: cs => core cs
  | cs => core cs

/-- Model of Python `float(x)` applied to a decoded JSON value: numbers pass
through, numeric strings are parsed, booleans coerce to 0/1, everything else
raises (`none`). -/
def pyFloatOfJ : JVal → Option ℚ
  | .jnum q => some q
  | .jstr s => pyFloat s
  | .jbool b => some (if b then 1 else 0)
  | _ => none

/-- Model of Python `int(x)` applied to a decoded JSON value. -/
def pyIntOfJ : JVal → Option ℤ
  | .jnum q => some (ratTrunc q)
  | .jstr s => pyIntStr s
  | .jbool b => some (if b then 1 else 0)
  | _ => none

/-- Model of Python iteration (`enumerate(x)`) over a decoded JSON value:
lists iterate their elements, strings their characters, dicts their keys;
numbers, booleans and `None` are not iterable (`none` models the
`TypeError`). -/
def pyIterate : JVal → Option (List JVal)
  | .jarr l => some l
  | .jstr s => some (s.toList.map (fun c => .jstr (String.mk [c])))
  | .jobj fs => some (fs.map (fun p => .jstr p.1))
  | _ => none

/-- Python `line.split(",")`: all segments, empty segments kept. -/
def splitComma : List Char → List (List Char)
  | [] => [[]]
  | ',' :: cs => [] :: splitComma cs
  | c :: cs =>
    match splitComma cs with
    | s :: rest => (c :: s) :: rest
    | [] => [[c]]

/-- Python `line.split(",")[0]`: the prefix before the first comma. -/
def firstSegment (cs : List Char) : List Char := cs.takeWhile (· ≠ ',')

/-! ## Consumer state (`App` in `bmet_2922_ppg_gui.py`)

The BPM buffer is the parallel deque pair `(ts, bpm)`, the waveform buffer
the pair `(wave_t, wave_y)`.  `lastPktTs` is `last_pkt_ts` (0.0 = "no packet
received yet", matching Python float truthiness), `missAlarmOn` the watchdog
flag, `lastAlarm` the `_last_alarm` attribute of `_log_once` (absent = 
`none`), `dropUntil` the `_drop_until` demo gate, and `logs` the sequence of
messages passed to `_log` (the wall-clock prefix the widget adds is out of
scope). -/

/-- Consumer-side state of the dashboard. -/
structure AppState where
  ts : List ℚ
  bpm : List ℚ
  waveT : List ℚ
  waveY : List JVal
  lastPktTs : ℚ
  missAlarmOn : Bool
  lastAlarm : Option String
  dropUntil : ℚ
  logs : List String

/-- `HISTORY_SECONDS` (the 15 s retention window). -/
def historySeconds : ℚ := 15

/-- One `while ts and ts[0] < cutoff: ts.popleft(); vs.popleft()` loop over a
parallel deque pair. -/
def trimPair (cutoff : ℚ) : List ℚ → List α → List ℚ × List α
  | t :: ts, vs => if t < cutoff then trimPair cutoff ts vs.tail else (t :: ts, vs)
  | [], vs => ([], vs)

/-- `App._trim_buffers`: head-trim both buffers at `now - HISTORY_SECONDS`. -/
def trimBuffers (now : ℚ) (st : AppState) : AppState :=
  let c := now - historySeconds
  let p := trimPair c st.ts st.bpm
  let w := trimPair c st.waveT st.waveY
  { st with ts := p.1, bpm := p.2, waveT := w.1, waveY := w.2 }

/-- The waveform-expansion loop `for i, y in enumerate(samples)` appending
`(base + i/50, y)` entry by entry at the tail of the waveform deques. -/
def waveExpandLoop (base : ℚ) : ℕ → List JVal → List ℚ → List JVal → List ℚ × List JVal
  | _, [], wt, wy => (wt, wy)
  | i, y :: rest, wt, wy =>
    waveExpandLoop base (i + 1) rest (wt ++ [base + (i : ℚ) / 50]) (wy ++ [y])

/-- Classification of one raw text line by the inline parser of
`App._poll_queue` (`bmet_2922_ppg_gui.py`): a full packet (JSON with `bpm`
and `samples`), a simple BPM event, or a parse error. -/
inductive RawResult where
  | pkt (bpm : ℚ) (samples : JVal) : RawResult
  | bpmEvt (bpm : ℚ) : RawResult
  | perr : RawResult

/-- Python `line.startswith("{")`: the first character is `{`. -/
def startsWithBrace (line : String) : Bool := line.toList.head? == some '{'

/-- The raw-line parsing logic of `App._poll_queue`: a line whose first
character is `{` is JSON-decoded (`jload`), must be an object carrying a
float-convertible `"bpm"`, and is a packet iff it has a `"samples"` key; any
failure on that path is a parse error.  Any other line has its first
comma-separated segment parsed as a float (`pfloat`). -/
def parseRawLine (jload : String → Option JVal) (pfloat : String → Option ℚ)
    (line : String) : RawResult :=
  if startsWithBrace line then
    match jload line with
    | some (.jobj fs) =>
      match jGet fs "bpm" with
      | some bv =>
        match pyFloatOfJ bv with
        | some bpm =>
          match jGet fs "samples" with
          | some sv => .pkt bpm sv
          | none => .bpmEvt bpm
        | none => .perr
      | none => .perr
    | _ => .perr
  else
    match pfloat (String.mk (firstSegment line.toList)) with
    | some bpm => .bpmEvt bpm
    | none => .perr

/-- Events carried by the producer/consumer queue of
`bmet_2922_ppg_gui.py`: log lines, raw text lines, simple BPM samples, and
full packets `(t_host, bpm, samples, seq, flags, t_mcu)`. -/
inductive QEvent where
  | logE (s : String) : QEvent
  | rawE (payload : String) : QEvent
  | bpmE (t v : ℚ) : QEvent
  | pktE (tHost b : ℚ) (samples : List JVal) (seq flags tMcu : ℤ) : QEvent

/-- One iteration of the `App._poll_queue` drain loop on one queue event,
evaluated at host clock `now` (the code reads `time.time()` for the demo
gate, the raw-line host stamp and the trim cutoff within the same
iteration).  Mirrors `bmet_2922_ppg_gui.py` lines 283-341: the `_drop_until`
demo gate `continue`s (skipping even the trim), parse errors log
`"[PARSE] " + line[:120]`, and every completed insertion batch ends in
`_trim_buffers`. -/
def pollEvent (jload : String → Option JVal) (st : AppState) (now : ℚ) :
    QEvent → AppState
  | .logE s => { st with logs := st.logs ++ [s] }
  | .bpmE t v =>
    if now < st.dropUntil then st
    else trimBuffers now
      { st with lastPktTs := t, ts := st.ts ++ [t], bpm := st.bpm ++ [v] }
  | .pktE tHost b samples _ _ _ =>
    if now < st.dropUntil then st
    else
      let st1 := { st with lastPktTs := tHost, ts := st.ts ++ [tHost], bpm := st.bpm ++ [b] }
      let w := waveExpandLoop (tHost - 1) 0 samples st1.waveT st1.waveY
      trimBuffers now { st1 with waveT := w.1, waveY := w.2 }
  | .rawE payload =>
    let line := String.mk (stripChars payload.toList)
    if now < st.dropUntil then st
    else
      match parseRawLine jload pyFloat line with
      | .perr =>
        trimBuffers now
          { st with logs := st.logs ++ ["[PARSE] " ++ String.mk (line.toList.take 120)] }
      | .bpmEvt b =>
        trimBuffers now
          { st with lastPktTs := now, ts := st.ts ++ [now], bpm := st.bpm ++ [b] }
      | .pkt b sv =>
        let st1 := { st with lastPktTs := now, ts := st.ts ++ [now], bpm := st.bpm ++ [b] }
        match pyIterate sv with
        | some items =>
          let w := waveExpandLoop (now - 1) 0 items st1.waveT st1.waveY
          trimBuffers now { st1 with waveT := w.1, waveY := w.2 }
        | none =>
          trimBuffers now
            { st1 with logs := st1.logs ++ ["[PARSE] " ++ String.mk (line.toList.take 120)] }

/-- Draining a batch of queued events, each processed at its own host
clock. -/
def pollBatch (jload : String → Option JVal) : List (ℚ × QEvent) → AppState → AppState
  | [], st => st
  | (n, e) :: rest, st => pollBatch jload rest (pollEvent jload st n e)

/-- The consumer state right after `App.__init__`: empty buffers, watchdog
pre-state (`last_pkt_ts = 0.0`), demo gate off, the greeting already
logged. -/
def initState : AppState :=
  { ts := [], bpm := [], waveT := [], waveY := [], lastPktTs := 0,
    missAlarmOn := false, lastAlarm := none, dropUntil := 0, logs := ["GUI started"] }

/-! ## Liveness watchdog (`App._redraw`, `bmet_2922_ppg_gui.py` lines 360-371) -/

/-- The stall transition log line. -/
def stallLine : String := "No packet for > 5 s"

/-- The recovery transition log line. -/
def resumeLine : String := "Packet stream resumed"

/-- The watchdog section at the top of `App._redraw`: with a truthy
`last_pkt_ts` and silence strictly longer than 5 s, enter the alarm (logging
the stall line only on the edge); otherwise leave it (logging the resume line
only on the edge, and only once a packet has ever arrived). -/
def redrawWatchdog (st : AppState) (now : ℚ) : AppState :=
  if st.lastPktTs ≠ 0 ∧ 5 < now - st.lastPktTs then
    if st.missAlarmOn then st
    else { st with missAlarmOn := true, logs := st.logs ++ [stallLine] }
  else
    if st.missAlarmOn ∧ st.lastPktTs ≠ 0 then
      { st with missAlarmOn := false, logs := st.logs ++ [resumeLine] }
    else { st with missAlarmOn := false }

/-- One step of a watchdog trace: a render tick at host clock `now`, or the
arrival (via the drain loop) of a sample stamped `t` processed at clock
`now`. -/
inductive WStep where
  | tick (now : ℚ) : WStep
  | packet (t v now : ℚ) : WStep

/-- Run a trace of render ticks and sample arrivals against the consumer
state: ticks run the `_redraw` watchdog section, arrivals run the
`_poll_queue` ingestion of a `("bpm", (t, v))` event. -/
def runWd (jload : String → Option JVal) : List WStep → AppState → AppState
  | [], st => st
  | .tick n :: r, st => runWd jload r (redrawWatchdog st n)
  | .packet t v n :: r, st => runWd jload r (pollEvent jload st n (.bpmE t v))

/-- The watchdog condition evaluated at each tick of a trace, threading the
last-packet timestamp through the arrivals. -/
def condSeq : List WStep → ℚ → List Bool
  | [], _ => []
  | .tick n :: r, lp => decide (lp ≠ 0 ∧ 5 < n - lp) :: condSeq r lp
  | .packet t _ _ :: r, _ => condSeq r t

/-- The transition lines a sequence of per-tick conditions produces:
one stall line at each rising edge, one resume line at each falling edge. -/
def edgeLines : Bool → List Bool → List String
  | _, [] => []
  | prev, b :: r =>
    (if b && !prev then [stallLine]
     else if !b && prev then [resumeLine]
     else []) ++ edgeLines b r

/-- A trace containing no packet arrivals. -/
def noArrivals : List WStep → Prop
  | [] => True
  | .tick _ :: r => noArrivals r
  | .packet _ _ _ :: _ => False

/-! ## Alarm evaluator and deduplicated alarm log
(`App._redraw` lines 422-434 and `App._log_once`, `bmet_2922_ppg_gui.py`) -/

/-- The three-way alarm state derived each render tick. -/
inductive AlarmState where
  | low : AlarmState
  | high : AlarmState
  | normal : AlarmState
deriving DecidableEq

/-- The threshold comparison of `App._redraw`: `curr_v < low` wins, then
`curr_v > high`, else normal. -/
def alarmEval (bpm lo hi : ℚ) : AlarmState :=
  if bpm < lo then .low else if bpm > hi then .high else .normal

/-- `App._log_once`: log `s` only when it differs from the previously logged
alarm text, and remember it. -/
def logOnce (st : AppState) (s : String) : AppState :=
  if st.lastAlarm ≠ some s then
    { st with lastAlarm := some s, logs := st.logs ++ [s] }
  else st

/-- The alarm section of one render tick: evaluate the thresholds against
the current BPM and log `"Pulse Low"` / `"Pulse High"` through `_log_once`;
the normal case touches neither the log nor `_last_alarm`. -/
def alarmTick (st : AppState) (bpm lo hi : ℚ) : AppState :=
  match alarmEval bpm lo hi with
  | .low => logOnce st "Pulse Low"
  | .high => logOnce st "Pulse High"
  | .normal => st

/-- Run a sequence of render ticks, each with its current BPM and the
threshold sliders' values at that tick. -/
def runAlarmTicks : List (ℚ × ℚ × ℚ) → AppState → AppState
  | [], st => st
  | (c, lo, hi) :: r, st => runAlarmTicks r (alarmTick st c lo hi)

/-- Specification-side mirror of `runAlarmTicks` on the `_last_alarm`
register alone, returning the final register and the emitted alarm lines. -/
def alarmRun : List (ℚ × ℚ × ℚ) → Option String → Option String × List String
  | [], last => (last, [])
  | (c, lo, hi) :: r, last =>
    match alarmEval c lo hi with
    | .normal => alarmRun r last
    | .low =>
      if last ≠ some "Pulse Low" then
        let p := alarmRun r (some "Pulse Low")
        (p.1, "Pulse Low" :: p.2)
      else alarmRun r last
    | .high =>
      if last ≠ some "Pulse High" then
        let p := alarmRun r (some "Pulse High")
        (p.1, "Pulse High" :: p.2)
      else alarmRun r last

/-- The previously logged alarm text as a (0- or 1-element) seed list. -/
def optSeed : Option String → List String
  | none => []
  | some x => [x]

/-! ## `gui_pulse_monitor.py`: `RingBuffer` and `BackendReader._parse_line` -/

/-- `Sample` of `gui_pulse_monitor.py`: a normalized timestamp, a BPM value
and a PPG amplitude. -/
structure Sample where
  t : ℚ
  bpm : ℚ
  ppg : ℚ

/-- `RingBuffer` of `gui_pulse_monitor.py`: three parallel deques and a
retention span in seconds. -/
structure RingBuffer where
  seconds : ℚ
  ts : List ℚ
  bpm : List ℚ
  ppg : List ℚ

/-- The lockstep head-trim of `RingBuffer.append`, keyed on the timestamp
deque. -/
def trim3 (cutoff : ℚ) : List ℚ → List ℚ → List ℚ → List ℚ × List ℚ × List ℚ
  | t :: ts, vs, ws =>
    if t < cutoff then trim3 cutoff ts vs.tail ws.tail else (t :: ts, vs, ws)
  | [], vs, ws => ([], vs, ws)

/-- `RingBuffer.append`: append the sample at the tail of all three deques,
then drop head entries with timestamp below `s.t - seconds`. -/
def RingBuffer.append (rb : RingBuffer) (s : Sample) : RingBuffer :=
  let r := trim3 (s.t - rb.seconds) (rb.ts ++ [s.t]) (rb.bpm ++ [s.bpm]) (rb.ppg ++ [s.ppg])
  { rb with ts := r.1, bpm := r.2.1, ppg := r.2.2 }

/-- `BackendReader._normalize_ts`: epoch milliseconds, epoch seconds, or a
`t0`-relative offset, all reduced to seconds since `t0`. -/
def normalizeTs (tRaw t0 : ℚ) : ℚ :=
  let tSec : ℚ :=
    if tRaw > 10 ^ 12 then tRaw / 1000
    else if tRaw > 10 ^ 9 then tRaw
    else t0 + tRaw
  tSec - t0

/-- `BackendReader._parse_line` (`gui_pulse_monitor.py`): try JSON first on
every line (an object with mandatory `bpm` and `ppg`, optional `ts`
defaulting to the host clock `now`); on any failure fall through to the CSV
path `ts,bpm,ppg` (parsed only when at least three comma segments exist).
Returns `none` where the Python code returns `None` (the line is dropped). -/
def parse_line (jload : String → Option JVal) (line : String) (t0 now : ℚ) :
    Option Sample :=
  let jsonRes : Option Sample :=
    match jload line with
    | some (.jobj fs) =>
      let tRaw : Option ℚ :=
        match jGet fs "ts" with
        | some v => pyFloatOfJ v
        | none => some now
      match tRaw, (jGet fs "bpm").bind pyFloatOfJ, (jGet fs "ppg").bind pyFloatOfJ with
      | some tr, some b, some p => some ⟨normalizeTs tr t0, b, p⟩
      | _, _, _ => none
    | _ => none
  match jsonRes with
  | some s => some s
  | none =>
    match (splitComma line.toList).map stripChars with
    | a :: b :: c :: _ =>
      match pyFloat (String.mk a), pyFloat (String.mk b), pyFloat (String.mk c) with
      | some tr, some bb, some pp => some ⟨normalizeTs tr t0, bb, pp⟩
      | _, _, _ => none
    | _ => none

/-! ## Loss/latency accumulators (`_App__poll_queue_addon`,
`bmet_2922_ppg_gui1.py` lines 756-766, and `_addon_update_researcher_timer`
lines 640-642) -/

/-- The researcher-addon accumulators: the bounded latency history
(`_lat_ms`, `deque(maxlen=600)`), the previous sequence number, the
cumulative missed-packet counter and the received-packet counter. -/
structure MetricsState where
  latMs : List ℚ
  seqPrev : Option ℤ
  missed : ℤ
  totalPkts : ℤ

/-- Append on a `deque(maxlen=cap)`: evict from the head once the capacity
is reached. -/
def dequeAppend (cap : ℕ) (l : List α) (x : α) : List α :=
  if l.length < cap then l ++ [x] else l.drop (l.length + 1 - cap) ++ [x]

/-- The latency & loss tracking block run on each `pkt` event: clamp the
latency `(t_host - t_mcu/1000) * 1000` at zero into the bounded history,
add `gap - 1` to the missed counter when the mod-65536 sequence gap exceeds
one, remember the sequence number, and count the packet. -/
def metricsOnPkt (m : MetricsState) (tHost : ℚ) (seq tMcu : ℤ) : MetricsState :=
  let lat : ℚ := (tHost - (tMcu : ℚ) / 1000) * 1000
  let latMs' := dequeAppend 600 m.latMs (max 0 lat)
  let missed' :=
    match m.seqPrev with
    | some p =>
      let gap := (seq - p) % 65536
      if gap > 1 then m.missed + (gap - 1) else m.missed
    | none => m.missed
  { latMs := latMs', seqPrev := some seq, missed := missed',
    totalPkts := m.totalPkts + 1 }

/-- The loss percentage displayed by the researcher panel:
`100.0 * _missed / (_missed + _total_pkts)`. -/
def lossPercent (m : MetricsState) : ℚ :=
  100 * (m.missed : ℚ) / ((m.missed : ℚ) + (m.totalPkts : ℚ))

/-- Fold a list of packet sequence numbers through the metrics block (host
and device timestamps irrelevant to loss accounting). -/
def runSeqs (m : MetricsState) : List ℤ → MetricsState
  | [] => m
  | s :: rest => runSeqs (metricsOnPkt m 0 s 0) rest

/-- Fresh accumulators, as installed by `_App__init_addon`. -/
def initMetrics : MetricsState :=
  { latMs := [], seqPrev := none, missed := 0, totalPkts := 0 }

/-! ## Packet field extraction in the two raw-JSON packet parsers -/

/-- The `seq`/`flags`/`t_mcu` extraction of the in-App raw-line parser of
`bmet_2922_ppg_gui1.py` (`_App__poll_queue_addon`, lines 785-790), given the
decoded object's fields: each missing key defaults to 0; `none` models an
`int()` conversion failure (which aborts the whole line as a parse
error).  There is no packet counter on this path. -/
def gui1PacketFields (fs : List (String × JVal)) : Option (ℤ × ℤ × ℤ) := do
  let seq ← match jGet fs "seq" with
    | some v => pyIntOfJ v
    | none => some 0
  let flags ← match jGet fs "flags" with
    | some v => pyIntOfJ v
    | none => some 0
  let tMcu ← match jGet fs "t_mcu" with
    | some v => pyIntOfJ v
    | none => some 0
  some (seq, flags, tMcu)

/-- The `seq`/`flags`/`t_mcu` extraction of `BackendThread.run`
(`src/unnamed/part_000`, lines 119-124), given the decoded object's fields
and the thread's `self.seq` counter.  Returns `(seq, counter', flags,
t_mcu)`: a missing `seq` defaults to the counter, and the counter is set to
`seq + 1` in either case.  (`none` models an `int()` failure; the model
collapses the counter update on the partial-failure path, which no claim
exercises.) -/
def backendPacketFields (counter : ℤ) (fs : List (String × JVal)) :
    Option (ℤ × ℤ × ℤ × ℤ) := do
  let seq ← match jGet fs "seq" with
    | some v => pyIntOfJ v
    | none => some counter
  let flags ← match jGet fs "flags" with
    | some v => pyIntOfJ v
    | none => some 0
  let tMcu ← match jGet fs "t_mcu" with
    | some v => pyIntOfJ v
    | none => some 0
  some (seq, seq + 1, flags, tMcu)

/-! ## Concrete fixtures

Closed inputs used to evaluate the model at specific points.  `jloadNone`
instantiates the `json.loads` parameter on inputs where Python's decoder
raises (every line fed to it below is invalid JSON). -/

/-- `json.loads` restricted to undecodable inputs. -/
def jloadNone : String → Option JVal := fun _ => none

/-- The literal line `{"bpm":70,"samples":5}` (valid JSON whose `samples`
value is a non-iterable number). -/
def badSamplesLine : String := "\x7b\x22bpm\x22:70,\x22samples\x22:5\x7d"

/-- `json.loads` on `badSamplesLine` and nothing else. -/
def jloadBadSamples : String → Option JVal := fun s =>
  if s = badSamplesLine then some (.jobj [("bpm", .jnum 70), ("samples", .jnum 5)]) else none

/-- A consumer state holding one aged BPM entry (timestamp 1). -/
def agedState : AppState := { initState with ts := [1], bpm := [50] }

/-- A JSON packet object with `bpm` and `samples` but no `seq`, `flags` or
`t_mcu`. -/
def noSeqFields : List (String × JVal) :=
  [("bpm", .jnum 70), ("samples", .jarr [.jnum 1, .jnum 2])]

/-- Two two-sample packets 0.01 s apart followed by a BPM sample 14.005 s
later, every event processed at a host clock equal to its stamp; arrival
timestamps are non-decreasing. -/
def overlapTrace : List (ℚ × QEvent) :=
  [(10, .pktE 10 70 [.jnum 1, .jnum 2] 0 0 0),
   (1001 / 100, .pktE (1001 / 100) 70 [.jnum 3, .jnum 4] 1 0 0),
   (4803 / 200, .bpmE (4803 / 200) 80)]

/-- A watchdog trace: packet at t=10, ticks at 16 and 17 (stalled), packet
at 18, tick at 19 (recovered). -/
def wdTraceEx : List WStep :=
  [.packet 10 70 10, .tick 16, .tick 17, .packet 18 70 18, .tick 19]

/-! ## Auxiliary lemmas -/

theorem digitVal_c0 : digitVal '0' = 0 := by decide

theorem digitVal_c1 : digitVal '1' = 1 := by decide

theorem digitVal_c2 : digitVal '2' = 2 := by decide

theorem digitVal_c3 : digitVal '3' = 3 := by decide

theorem digitVal_c4 : digitVal '4' = 4 := by decide

theorem digitVal_c5 : digitVal '5' = 5 := by decide

theorem digitVal_c7 : digitVal '7' = 7 := by decide

theorem digitVal_c8 : digitVal '8' = 8 := by decide

theorem digitVal_c9 : digitVal '9' = 9 := by decide

theorem ratTrunc_intCast (n : ℤ) : ratTrunc (n : ℚ) = n := by
  simp [ratTrunc, Rat.num_intCast, Rat.den_intCast, Int.tdiv_one]

/-- The timestamp component of a lockstep pair trim is a `dropWhile` on the
timestamp deque. -/
theorem trimPair_fst (c : ℚ) (ts : List ℚ) (vs : List α) :
    (trimPair c ts vs).1 = ts.dropWhile (fun t => decide (t < c)) := by
  induction ts generalizing vs with
  | nil => simp [trimPair, List.dropWhile]
  | cons t ts ih =>
    by_cases h : t < c <;> simp [trimPair, List.dropWhile, h, ih]

theorem mem_dropWhile_subset {p : ℚ → Bool} {l : List ℚ} {x : ℚ}
    (h : x ∈ l.dropWhile p) : x ∈ l := by
  induction l with
  | nil => simp [List.dropWhile] at h
  | cons a l ih =>
    rw [List.dropWhile] at h
    by_cases hp : p a
    · simp only [hp] at h
      exact List.mem_cons_of_mem a (ih h)
    · simpa [hp] using h

/-- Every survivor of a head trim on a sorted timestamp deque is at or above
the cutoff. -/
theorem dropWhile_lt_clean {c : ℚ} {l : List ℚ}
    (hs : List.Pairwise (· ≤ ·) l) {x : ℚ}
    (hx : x ∈ l.dropWhile (fun t => decide (t < c))) : c ≤ x := by
  induction l with
  | nil => simp [List.dropWhile] at hx
  | cons a l ih =>
    rw [List.dropWhile_cons] at hx
    by_cases ha : a < c
    · rw [if_pos (by simpa using ha)] at hx
      exact ih hs.of_cons hx
    · rw [if_neg (by simpa using ha)] at hx
      rcases List.mem_cons.mp hx with rfl | hmem
      · linarith
      · exact le_trans (not_lt.mp ha) (List.rel_of_pairwise_cons hs hmem)

theorem trimPair_snd_mem {c : ℚ} {ts : List ℚ} {vs : List α} {x : α}
    (h : x ∈ (trimPair c ts vs).2) : x ∈ vs := by
  induction ts generalizing vs with
  | nil => simpa [trimPair] using h
  | cons t ts ih =>
    rw [trimPair] at h
    by_cases ht : t < c
    · simp only [ht, if_true] at h
      cases vs with
      | nil => simpa using ih h
      | cons v vs => exact List.mem_cons_of_mem v (ih h)
    · simpa [ht] using h

theorem trimPair_length {c : ℚ} :
    ∀ {ts : List ℚ} {vs : List α}, ts.length = vs.length →
      (trimPair c ts vs).1.length = (trimPair c ts vs).2.length
  | [], vs, h => by simpa [trimPair] using h
  | t :: ts, v :: vs, h => by
    rw [trimPair]
    by_cases ht : t < c
    · simp only [ht, if_true, List.tail_cons]
      exact trimPair_length (by simpa using h)
    · simpa [ht] using h

theorem pairwise_append_singleton {l : List ℚ} {t : ℚ}
    (hs : List.Pairwise (· ≤ ·) l) (hb : ∀ x ∈ l, x ≤ t) :
    List.Pairwise (· ≤ ·) (l ++ [t]) := by
  rw [List.pairwise_append]
  exact ⟨hs, List.pairwise_singleton _ t, fun x hx y hy => by
    rcases List.mem_singleton.mp hy with rfl; exact hb x hx⟩

/-- Closed form of the waveform-expansion loop: it appends exactly one entry
per sample, in index order, with timestamps `base + (i + k)/50`. -/
theorem waveExpandLoop_eq (base : ℚ) :
    ∀ (samples : List JVal) (i : ℕ) (wt : List ℚ) (wy : List JVal),
      waveExpandLoop base i samples wt wy =
        (wt ++ (List.range samples.length).map (fun k => base + ((i + k : ℕ) : ℚ) / 50),
         wy ++ samples)
  | [], i, wt, wy => by simp [waveExpandLoop]
  | y :: rest, i, wt, wy => by
    rw [waveExpandLoop, waveExpandLoop_eq base rest (i + 1)]
    refine Prod.ext ?_ (by simp)
    simp only [List.length_cons, List.range_succ_eq_map, List.map_cons, List.map_map,
      List.append_assoc, List.singleton_append, Nat.add_zero]
    refine congrArg (wt ++ ·) (congrArg (_ :: ·) (List.map_congr_left ?_))
    intro k _
    simp only [Function.comp_apply]
    push_cast
    ring

theorem trimBuffers_paired (now : ℚ) (st : AppState)
    (h1 : st.ts.length = st.bpm.length) (h2 : st.waveT.length = st.waveY.length) :
    (trimBuffers now st).ts.length = (trimBuffers now st).bpm.length ∧
    (trimBuffers now st).waveT.length = (trimBuffers now st).waveY.length :=
  ⟨trimPair_length h1, trimPair_length h2⟩

theorem pollEvent_paired (jload : String → Option JVal) (st : AppState) (now : ℚ)
    (e : QEvent) (h1 : st.ts.length = st.bpm.length)
    (h2 : st.waveT.length = st.waveY.length) :
    (pollEvent jload st now e).ts.length = (pollEvent jload st now e).bpm.length ∧
    (pollEvent jload st now e).waveT.length = (pollEvent jload st now e).waveY.length := by
  cases e with
  | logE s => simpa [pollEvent] using ⟨h1, h2⟩
  | bpmE t v =>
    by_cases hg : now < st.dropUntil
    · simpa [pollEvent, hg] using ⟨h1, h2⟩
    · simp only [pollEvent, if_neg hg]
      apply trimBuffers_paired <;> simp [h1, h2]
  | pktE t b samples seq flags tMcu =>
    by_cases hg : now < st.dropUntil
    · simpa [pollEvent, hg] using ⟨h1, h2⟩
    · simp only [pollEvent, if_neg hg, waveExpandLoop_eq]
      exact trimBuffers_paired _ _ (by simp [h1]) (by simp [h2])
  | rawE payload =>
    by_cases hg : now < st.dropUntil
    · simpa [pollEvent, hg] using ⟨h1, h2⟩
    · cases hp : parseRawLine jload pyFloat (String.mk (stripChars payload.toList)) with
      | perr =>
        simp only [pollEvent, if_neg hg, hp]
        exact trimBuffers_paired _ _ h1 h2
      | bpmEvt b =>
        simp only [pollEvent, if_neg hg, hp]
        apply trimBuffers_paired <;> simp [h1, h2]
      | pkt b sv =>
        cases hit : pyIterate sv with
        | none =>
          simp only [pollEvent, if_neg hg, hp, hit]
          apply trimBuffers_paired <;> simp [h1, h2]
        | some items =>
          simp only [pollEvent, if_neg hg, hp, hit, waveExpandLoop_eq]
          apply trimBuffers_paired <;> simp [h1, h2]

theorem pollBatch_paired (jload : String → Option JVal) :
    ∀ (trace : List (ℚ × QEvent)) (st : AppState),
      st.ts.length = st.bpm.length → st.waveT.length = st.waveY.length →
      (pollBatch jload trace st).ts.length = (pollBatch jload trace st).bpm.length ∧
      (pollBatch jload trace st).waveT.length = (pollBatch jload trace st).waveY.length
  | [], st, h1, h2 => ⟨h1, h2⟩
  | (n, e) :: rest, st, h1, h2 => by
    rw [pollBatch]
    obtain ⟨g1, g2⟩ := pollEvent_paired jload st n e h1 h2
    exact pollBatch_paired jload rest _ g1 g2

/-- C10: after every consumer operation (queue-event ingestion, including
BpmEvent appends, PacketEvent appends with waveform expansion and ParseError
handling, as well as the `_trim_buffers` step on its own), the BPM timestamp
deque and the BPM value deque have equal length, and the waveform timestamp
deque and the waveform amplitude deque have equal length. -/
theorem paired_deques_stay_paired (jload : String → Option JVal) :
    (∀ (st : AppState) (now : ℚ) (e : QEvent),
      st.ts.length = st.bpm.length → st.waveT.length = st.waveY.length →
      (pollEvent jload st now e).ts.length = (pollEvent jload st now e).bpm.length ∧
      (pollEvent jload st now e).waveT.length = (pollEvent jload st now e).waveY.length) ∧
    (∀ (st : AppState) (now : ℚ),
      st.ts.length = st.bpm.length → st.waveT.length = st.waveY.length →
      (trimBuffers now st).ts.length = (trimBuffers now st).bpm.length ∧
      (trimBuffers now st).waveT.length = (trimBuffers now st).waveY.length) ∧
    (∀ (trace : List (ℚ × QEvent)) (st : AppState),
      st.ts.length = st.bpm.length → st.waveT.length = st.waveY.length →
      (pollBatch jload trace st).ts.length = (pollBatch jload trace st).bpm.length ∧
      (pollBatch jload trace st).waveT.length = (pollBatch jload trace st).waveY.length) :=
  ⟨fun st now e => pollEvent_paired jload st now e,
   fun st now => trimBuffers_paired now st,
   fun trace st => pollBatch_paired jload trace st⟩

/-- Witness for C10 at a concrete state and event. -/
theorem paired_deques_stay_paired_witness :
    (pollEvent jloadNone agedState 20 (.bpmE 20 80)).ts.length =
      (pollEvent jloadNone agedState 20 (.bpmE 20 80)).bpm.length :=
  ((paired_deques_stay_paired jloadNone).1 agedState 20 (.bpmE 20 80)
    (by simp [agedState, initState]) (by simp [agedState, initState])).1

/-- C4: the alarm evaluator returns LOW when `bpm < low`, else HIGH when
`bpm > high`, else NORMAL; both boundaries map to NORMAL (for thresholds in
the usual order `low <= high`), and when `low > high` the LOW check takes
precedence for any `bpm < low`, even if `bpm > high`. -/
theorem alarm_evaluator_thresholds (bpm lo hi : ℚ) :
    (bpm < lo → alarmEval bpm lo hi = .low) ∧
    (¬bpm < lo → hi < bpm → alarmEval bpm lo hi = .high) ∧
    (¬bpm < lo → ¬hi < bpm → alarmEval bpm lo hi = .normal) ∧
    (lo ≤ hi → alarmEval lo lo hi = .normal ∧ alarmEval hi lo hi = .normal) ∧
    (hi < lo → bpm < lo → alarmEval bpm lo hi = .low) := by
  refine ⟨fun h => ?_, fun h1 h2 => ?_, fun h1 h2 => ?_, fun h => ⟨?_, ?_⟩,
    fun h1 h2 => ?_⟩ <;>
  simp only [alarmEval] <;> split_ifs <;> first | rfl | (exfalso; linarith)

/-- Witness for C4 at the spec's example thresholds (40, 90): 39.9 is LOW,
40 and 90 are NORMAL, 90.1 is HIGH. -/
theorem alarm_evaluator_thresholds_witness :
    alarmEval (399 / 10) 40 90 = .low ∧ alarmEval 40 40 90 = .normal ∧
    alarmEval 90 40 90 = .normal ∧ alarmEval (901 / 10) 40 90 = .high :=
  ⟨(alarm_evaluator_thresholds (399 / 10) 40 90).1 (by norm_num),
   ((alarm_evaluator_thresholds 40 40 90).2.2.2.1 (by norm_num)).1,
   ((alarm_evaluator_thresholds 90 40 90).2.2.2.1 (by norm_num)).2,
   (alarm_evaluator_thresholds (901 / 10) 40 90).2.1 (by norm_num) (by norm_num)⟩

/-- C8: expanding an ingested packet's sample list appends exactly one
waveform entry per sample, at the tail and in index order, entry `i`
carrying timestamp `t_host - 1 + i/50` and amplitude `samples[i]`
(`waveExpandLoop (tHost - 1) 0` is exactly how `pollEvent` invokes the
expansion loop). -/
theorem waveform_expansion_exact (tHost : ℚ) (samples : List JVal)
    (wt : List ℚ) (wy : List JVal) :
    waveExpandLoop (tHost - 1) 0 samples wt wy =
      (wt ++ (List.range samples.length).map (fun i : ℕ => tHost - 1 + (i : ℚ) / 50),
       wy ++ samples) ∧
    (waveExpandLoop (tHost - 1) 0 samples wt wy).1.length =
      wt.length + samples.length := by
  rw [waveExpandLoop_eq]
  simp

theorem trim3_fst (c : ℚ) (ts vs ws : List ℚ) :
    (trim3 c ts vs ws).1 = ts.dropWhile (fun t => decide (t < c)) := by
  induction ts generalizing vs ws with
  | nil => simp [trim3, List.dropWhile]
  | cons t ts ih =>
    by_cases h : t < c <;> simp [trim3, List.dropWhile, h, ih]

theorem pollEvent_bpm_retention (jload : String → Option JVal) (st : AppState)
    (t v now : ℚ) (hgate : st.dropUntil ≤ now) (htn : t ≤ now)
    (hsort : List.Pairwise (· ≤ ·) st.ts) (hbound : ∀ x ∈ st.ts, x ≤ t)
    (hwsort : List.Pairwise (· ≤ ·) st.waveT) :
    (∀ x ∈ (pollEvent jload st now (.bpmE t v)).ts, ¬x < t - historySeconds) ∧
    (∀ x ∈ (pollEvent jload st now (.bpmE t v)).waveT, ¬x < t - historySeconds) := by
  have hg : ¬now < st.dropUntil := not_lt.mpr hgate
  simp only [pollEvent, if_neg hg, trimBuffers]
  constructor
  · intro x hx
    rw [trimPair_fst] at hx
    have hge := dropWhile_lt_clean (pairwise_append_singleton hsort hbound) hx
    intro hlt; linarith
  · intro x hx
    rw [trimPair_fst] at hx
    have hge := dropWhile_lt_clean hwsort hx
    intro hlt; linarith

theorem pairwise_range_base (t : ℚ) (n : ℕ) :
    List.Pairwise (· ≤ ·)
      ((List.range n).map (fun k : ℕ => t - 1 + (k : ℚ) / 50)) := by
  rw [List.pairwise_map]
  refine (List.pairwise_lt_range n).imp ?_
  intro a b h
  have hc : (a : ℚ) ≤ (b : ℚ) := by exact_mod_cast h.le
  have : (a : ℚ) / 50 ≤ (b : ℚ) / 50 := by linarith
  linarith

theorem pollEvent_pkt_retention (jload : String → Option JVal) (st : AppState)
    (t b now : ℚ) (samples : List JVal) (seq flags tMcu : ℤ)
    (hgate : st.dropUntil ≤ now) (htn : t ≤ now)
    (hsort : List.Pairwise (· ≤ ·) st.ts) (hbound : ∀ x ∈ st.ts, x ≤ t)
    (hwsort : List.Pairwise (· ≤ ·) st.waveT)
    (hwbound : ∀ x ∈ st.waveT, x ≤ t - 1) :
    (∀ x ∈ (pollEvent jload st now (.pktE t b samples seq flags tMcu)).ts,
      ¬x < t - historySeconds) ∧
    (∀ x ∈ (pollEvent jload st now (.pktE t b samples seq flags tMcu)).waveT,
      ¬x < t - historySeconds) := by
  have hg : ¬now < st.dropUntil := not_lt.mpr hgate
  simp only [pollEvent, if_neg hg, waveExpandLoop_eq, Nat.zero_add, trimBuffers]
  constructor
  · intro x hx
    rw [trimPair_fst] at hx
    have hge := dropWhile_lt_clean (pairwise_append_singleton hsort hbound) hx
    intro hlt; linarith
  · intro x hx
    rw [trimPair_fst] at hx
    have hall : List.Pairwise (· ≤ ·)
        (st.waveT ++ (List.range samples.length).map (fun k : ℕ => t - 1 + (k : ℚ) / 50)) := by
      rw [List.pairwise_append]
      refine ⟨hwsort, pairwise_range_base t samples.length, ?_⟩
      intro a ha y hy
      obtain ⟨k, _, rfl⟩ := List.mem_map.mp hy
      have hk : (0 : ℚ) ≤ (k : ℚ) / 50 := by positivity
      have := hwbound a ha
      linarith
    have hge := dropWhile_lt_clean hall hx
    intro hlt; linarith

theorem rb_append_retention (rb : RingBuffer) (s : Sample)
    (hsort : List.Pairwise (· ≤ ·) rb.ts) (hbound : ∀ x ∈ rb.ts, x ≤ s.t) :
    ∀ x ∈ (rb.append s).ts, ¬x < s.t - rb.seconds := by
  intro x hx
  simp only [RingBuffer.append] at hx
  rw [trim3_fst] at hx
  have hge := dropWhile_lt_clean (pairwise_append_singleton hsort hbound) hx
  exact not_lt.mpr hge

/-- C1 (amended): after ingesting a sample stamped `t_new` at a host clock
`now >= t_new` and running the trim step, the BPM buffer (whose timestamps
are non-decreasing because arrivals are) holds no entry older than
`t_new - RETENTION_SECONDS`; the same holds for the waveform buffer
*provided its timestamps are non-decreasing* - for a packet this is
preserved when every existing waveform timestamp is at most the packet's
base `t_host - 1`, i.e. when consecutive packets arrive at least one second
apart.  The analogous property holds for `RingBuffer.append` of
`gui_pulse_monitor.py`, whose cutoff is exactly `s.t - seconds`. -/
theorem retention_after_insert_trim :
    (∀ (jload : String → Option JVal) (st : AppState) (t v now : ℚ),
      st.dropUntil ≤ now → t ≤ now →
      List.Pairwise (· ≤ ·) st.ts → (∀ x ∈ st.ts, x ≤ t) →
      List.Pairwise (· ≤ ·) st.waveT →
      (∀ x ∈ (pollEvent jload st now (.bpmE t v)).ts, ¬x < t - historySeconds) ∧
      (∀ x ∈ (pollEvent jload st now (.bpmE t v)).waveT, ¬x < t - historySeconds)) ∧
    (∀ (jload : String → Option JVal) (st : AppState) (t b now : ℚ)
      (samples : List JVal) (seq flags tMcu : ℤ),
      st.dropUntil ≤ now → t ≤ now →
      List.Pairwise (· ≤ ·) st.ts → (∀ x ∈ st.ts, x ≤ t) →
      List.Pairwise (· ≤ ·) st.waveT → (∀ x ∈ st.waveT, x ≤ t - 1) →
      (∀ x ∈ (pollEvent jload st now (.pktE t b samples seq flags tMcu)).ts,
        ¬x < t - historySeconds) ∧
      (∀ x ∈ (pollEvent jload st now (.pktE t b samples seq flags tMcu)).waveT,
        ¬x < t - historySeconds)) ∧
    (∀ (rb : RingBuffer) (s : Sample),
      List.Pairwise (· ≤ ·) rb.ts → (∀ x ∈ rb.ts, x ≤ s.t) →
      ∀ x ∈ (rb.append s).ts, ¬x < s.t - rb.seconds) :=
  ⟨fun jload st t v now h1 h2 h3 h4 h5 =>
      pollEvent_bpm_retention jload st t v now h1 h2 h3 h4 h5,
   fun jload st t b now samples seq flags tMcu h1 h2 h3 h4 h5 h6 =>
      pollEvent_pkt_retention jload st t b now samples seq flags tMcu h1 h2 h3 h4 h5 h6,
   fun rb s h1 h2 => rb_append_retention rb s h1 h2⟩

/-- Witness for C1 at a concrete insertion: a BPM sample stamped 20
ingested at clock 20 into the fresh state leaves `[20]` in the BPM buffer,
and 20 is not older than the cutoff. -/
theorem retention_after_insert_trim_witness : ¬(20 : ℚ) < 20 - historySeconds :=
  ((retention_after_insert_trim.1 jloadNone initState 20 80 20
      (by norm_num [initState]) (by norm_num)
      (by simp [initState]) (by simp [initState]) (by simp [initState])).1) 20
    (by norm_num [pollEvent, initState, trimBuffers, trimPair, historySeconds])

/-- Counterexample to C1 as stated: with two two-sample packets arriving
0.01 s apart (arrival timestamps non-decreasing, clock equal to each
arrival), the waveform deque becomes unsorted (`[9, 9.02, 9.01, 9.03]`), so
the head-only trim triggered by a later insertion stamped `t_new = 24.015`
stops at the entry 9.02 and leaves the entry 9.01 even though
`9.01 < t_new - RETENTION_SECONDS = 9.015`. -/
theorem retention_unsorted_waveform_cx :
    (901 / 100 : ℚ) ∈ (pollBatch jloadNone overlapTrace initState).waveT ∧
    (901 / 100 : ℚ) < 4803 / 200 - historySeconds ∧
    (10 : ℚ) ≤ 1001 / 100 ∧ (1001 / 100 : ℚ) ≤ 4803 / 200 := by
  norm_num [pollBatch, overlapTrace, pollEvent, initState, jloadNone, trimBuffers,
    trimPair, waveExpandLoop, historySeconds]

theorem redrawWatchdog_step (st : AppState) (n : ℚ)
    (hinv : st.missAlarmOn = true → st.lastPktTs ≠ 0) :
    (redrawWatchdog st n).logs = st.logs ++
      (if decide (st.lastPktTs ≠ 0 ∧ 5 < n - st.lastPktTs) && !st.missAlarmOn
        then [stallLine]
       else if !decide (st.lastPktTs ≠ 0 ∧ 5 < n - st.lastPktTs) && st.missAlarmOn
        then [resumeLine]
       else []) ∧
    (redrawWatchdog st n).missAlarmOn =
      decide (st.lastPktTs ≠ 0 ∧ 5 < n - st.lastPktTs) ∧
    (redrawWatchdog st n).lastPktTs = st.lastPktTs ∧
    (redrawWatchdog st n).dropUntil = st.dropUntil := by
  by_cases hcond : st.lastPktTs ≠ 0 ∧ 5 < n - st.lastPktTs
  · cases halarm : st.missAlarmOn <;>
      simp [redrawWatchdog, hcond, halarm]
  · cases halarm : st.missAlarmOn
    · simp [redrawWatchdog, hcond, halarm]
    · have hlp := hinv halarm
      have hnot : ¬5 < n - st.lastPktTs := fun h => hcond ⟨hlp, h⟩
      simp [redrawWatchdog, hcond, halarm, hlp, hnot]

theorem runWd_logs_aux (jload : String → Option JVal) :
    ∀ (steps : List WStep) (st : AppState),
      st.dropUntil = 0 →
      (∀ t v n, WStep.packet t v n ∈ steps → t ≠ 0 ∧ 0 ≤ n) →
      (st.missAlarmOn = true → st.lastPktTs ≠ 0) →
      (runWd jload steps st).logs =
        st.logs ++ edgeLines st.missAlarmOn (condSeq steps st.lastPktTs)
  | [], st, _, _, _ => by simp [runWd, condSeq, edgeLines]
  | .tick n :: r, st, hd, hp, hinv => by
    rw [runWd, condSeq, edgeLines]
    obtain ⟨hl, ha, hlp, hdu⟩ := redrawWatchdog_step st n hinv
    have hinv' : (redrawWatchdog st n).missAlarmOn = true →
        (redrawWatchdog st n).lastPktTs ≠ 0 := by
      rw [ha, hlp]
      intro hdec
      exact (of_decide_eq_true hdec).1
    have ih := runWd_logs_aux jload r (redrawWatchdog st n) (by rw [hdu]; exact hd)
      (fun t v m hm => hp t v m (List.mem_cons_of_mem _ hm)) hinv'
    rw [ih, hl, ha, hlp]
    simp [List.append_assoc]
  | .packet t v m :: r, st, hd, hp, hinv => by
    rw [runWd, condSeq]
    obtain ⟨ht0, hm0⟩ := hp t v m (List.mem_cons_self _ _)
    have hg : ¬m < st.dropUntil := by rw [hd]; exact not_lt.mpr hm0
    have hstep : (pollEvent jload st m (.bpmE t v)).logs = st.logs ∧
        (pollEvent jload st m (.bpmE t v)).missAlarmOn = st.missAlarmOn ∧
        (pollEvent jload st m (.bpmE t v)).lastPktTs = t ∧
        (pollEvent jload st m (.bpmE t v)).dropUntil = st.dropUntil := by
      simp [pollEvent, hg, trimBuffers]
    obtain ⟨hl, ha, hlp, hdu⟩ := hstep
    have ih := runWd_logs_aux jload r (pollEvent jload st m (.bpmE t v))
      (by rw [hdu]; exact hd)
      (fun t' v' m' hm => hp t' v' m' (List.mem_cons_of_mem _ hm))
      (by rw [ha, hlp]; intro hh; exact fun c => ht0 c)
    rw [ih, hl, ha, hlp]

theorem runWd_noArrivals (jload : String → Option JVal) :
    ∀ (steps : List WStep) (st : AppState), noArrivals steps →
      st.lastPktTs = 0 → st.missAlarmOn = false →
      (runWd jload steps st).logs = st.logs ∧
      (runWd jload steps st).missAlarmOn = false
  | [], st, _, _, ha => by simp [runWd, ha]
  | .tick n :: r, st, hna, hlp, ha => by
    rw [runWd]
    have hstep : redrawWatchdog st n = { st with missAlarmOn := false } := by
      have hc : ¬(st.lastPktTs ≠ 0 ∧ 5 < n - st.lastPktTs) := fun h => h.1 hlp
      simp [redrawWatchdog, hc, ha]
    rw [hstep]
    exact runWd_noArrivals jload r _ hna hlp rfl
  | .packet _ _ _ :: _, _, hna, _, _ => absurd hna (by simp [noArrivals])

/-- C2: along any trace of render ticks and sample arrivals (arrival
timestamps are genuine positive clock readings), the transition lines the
watchdog logs are exactly the edge lines of the per-tick stall condition
`last_pkt_ts` set and `now - last_pkt_ts > 5` (strictly): one
"No packet for > 5 s" line at the first tick of each maximal run of
stalled ticks, one "Packet stream resumed" line at the first clear tick
after such a run, and nothing else; before any packet has arrived
(`last_pkt_ts` still 0) no line is logged and the alarm flag stays off. -/
theorem watchdog_edge_triggered (jload : String → Option JVal) :
    (∀ steps : List WStep,
      (∀ t v n, WStep.packet t v n ∈ steps → t ≠ 0 ∧ 0 ≤ n) →
      (runWd jload steps initState).logs =
        initState.logs ++ edgeLines false (condSeq steps 0)) ∧
    (∀ steps : List WStep, noArrivals steps →
      (runWd jload steps initState).logs = initState.logs ∧
      (runWd jload steps initState).missAlarmOn = false) := by
  constructor
  · intro steps hp
    have h := runWd_logs_aux jload steps initState rfl hp (by simp [initState])
    simpa [initState] using h
  · intro steps hna
    exact runWd_noArrivals jload steps initState hna rfl rfl

/-- Witness for C2: packet at t=10, stalled ticks at 16 and 17, packet at
18, clear tick at 19 - exactly one stall line and one resume line. -/
theorem watchdog_edge_triggered_witness :
    (runWd jloadNone wdTraceEx initState).logs =
      ["GUI started", stallLine, resumeLine] := by
  have h := (watchdog_edge_triggered jloadNone).1 wdTraceEx (by
    intro t v n hm
    simp only [wdTraceEx, List.mem_cons, List.not_mem_nil, or_false] at hm
    rcases hm with h | h | h | h | h <;> simp_all)
  rw [h]
  norm_num [wdTraceEx, condSeq, edgeLines, initState]

theorem alarmTick_normal (st : AppState) (bpm lo hi : ℚ)
    (h : alarmEval bpm lo hi = .normal) : alarmTick st bpm lo hi = st := by
  simp [alarmTick, h]

theorem runAlarmTicks_spec :
    ∀ (ticks : List (ℚ × ℚ × ℚ)) (st : AppState),
      (runAlarmTicks ticks st).logs = st.logs ++ (alarmRun ticks st.lastAlarm).2 ∧
      (runAlarmTicks ticks st).lastAlarm = (alarmRun ticks st.lastAlarm).1
  | [], st => by simp [runAlarmTicks, alarmRun]
  | (c, lo, hi) :: r, st => by
    rw [runAlarmTicks, alarmRun]
    cases he : alarmEval c lo hi with
    | normal => rw [alarmTick_normal st c lo hi he]; exact runAlarmTicks_spec r st
    | low =>
      by_cases hl : st.lastAlarm = some "Pulse Low"
      · have : alarmTick st c lo hi = st := by simp [alarmTick, he, logOnce, hl]
        rw [this]
        simpa [hl] using runAlarmTicks_spec r st
      · have hstep : alarmTick st c lo hi =
            { st with lastAlarm := some "Pulse Low", logs := st.logs ++ ["Pulse Low"] } := by
          simp [alarmTick, he, logOnce, hl]
        rw [hstep]
        obtain ⟨h1, h2⟩ := runAlarmTicks_spec r
          { st with lastAlarm := some "Pulse Low", logs := st.logs ++ ["Pulse Low"] }
        simp only [hl, if_neg, ite_not] at h1 h2 ⊢
        constructor
        · rw [h1]; simp [hl]
        · rw [h2]; simp [hl]
    | high =>
      by_cases hl : st.lastAlarm = some "Pulse High"
      · have : alarmTick st c lo hi = st := by simp [alarmTick, he, logOnce, hl]
        rw [this]
        simpa [hl] using runAlarmTicks_spec r st
      · have hstep : alarmTick st c lo hi =
            { st with lastAlarm := some "Pulse High", logs := st.logs ++ ["Pulse High"] } := by
          simp [alarmTick, he, logOnce, hl]
        rw [hstep]
        obtain ⟨h1, h2⟩ := runAlarmTicks_spec r
          { st with lastAlarm := some "Pulse High", logs := st.logs ++ ["Pulse High"] }
        constructor
        · rw [h1]; simp [hl]
        · rw [h2]; simp [hl]

theorem alarmRun_chain :
    ∀ (ticks : List (ℚ × ℚ × ℚ)) (last : Option String),
      List.Chain' (· ≠ ·) (optSeed last ++ (alarmRun ticks last).2)
  | [], last => by cases last <;> simp [alarmRun, optSeed]
  | (c, lo, hi) :: r, last => by
    rw [alarmRun]
    cases he : alarmEval c lo hi with
    | normal => exact alarmRun_chain r last
    | low =>
      by_cases hl : last ≠ some "Pulse Low"
      · rw [if_pos hl]
        have ih := alarmRun_chain r (some "Pulse Low")
        cases last with
        | none => simpa [optSeed] using ih
        | some x =>
          simp only [optSeed, List.singleton_append]
          refine List.chain'_cons.mpr ⟨?_, by simpa [optSeed] using ih⟩
          simpa using hl
      · rw [if_neg hl]
        push_neg at hl
        subst hl
        exact alarmRun_chain r (some "Pulse Low")
    | high =>
      by_cases hl : last ≠ some "Pulse High"
      · rw [if_pos hl]
        have ih := alarmRun_chain r (some "Pulse High")
        cases last with
        | none => simpa [optSeed] using ih
        | some x =>
          simp only [optSeed, List.singleton_append]
          refine List.chain'_cons.mpr ⟨?_, by simpa [optSeed] using ih⟩
          simpa using hl
      · rw [if_neg hl]
        push_neg at hl
        subst hl
        exact alarmRun_chain r (some "Pulse High")

/-- C9: along any sequence of render ticks, the alarm lines the redraw emits
are exactly the output of the deduplicated `_log_once` register: the
register seeded with the previously logged text followed by the emitted
lines forms a chain of pairwise-distinct consecutive entries (so a line is
emitted only when it differs from the previously logged alarm text, and the
same text is never logged on two consecutive emissions), and a tick whose
computed state is NORMAL emits nothing and leaves the register untouched. -/
theorem alarm_log_dedup :
    (∀ (ticks : List (ℚ × ℚ × ℚ)) (st : AppState),
      (runAlarmTicks ticks st).logs = st.logs ++ (alarmRun ticks st.lastAlarm).2 ∧
      (runAlarmTicks ticks st).lastAlarm = (alarmRun ticks st.lastAlarm).1) ∧
    (∀ (ticks : List (ℚ × ℚ × ℚ)) (last : Option String),
      List.Chain' (· ≠ ·) (optSeed last ++ (alarmRun ticks last).2)) ∧
    (∀ (st : AppState) (bpm lo hi : ℚ), alarmEval bpm lo hi = .normal →
      alarmTick st bpm lo hi = st) :=
  ⟨fun ticks st => runAlarmTicks_spec ticks st,
   fun ticks last => alarmRun_chain ticks last,
   fun st bpm lo hi h => alarmTick_normal st bpm lo hi h⟩

/-- Witness for C9: a NORMAL tick (70 bpm against thresholds 40/90) is a
no-op on the consumer state. -/
theorem alarm_log_dedup_witness : alarmTick initState 70 40 90 = initState :=
  alarm_log_dedup.2.2 initState 70 40 90 (by norm_num [alarmEval])

theorem dequeAppend_length_le {cap : ℕ} (l : List ℚ) (x : ℚ)
    (h : l.length ≤ cap) (hc : 1 ≤ cap) : (dequeAppend cap l x).length ≤ cap := by
  unfold dequeAppend
  split_ifs with hl
  · simp; omega
  · simp [List.length_drop]; omega

/-- C7: each processed packet appends the zero-clamped latency
`max 0 ((t_host - t_mcu/1000) * 1000)` to the bounded (600-entry,
head-evicting) latency history, adds `gap - 1` to the missed counter exactly
when the mod-65536 sequence gap exceeds 1, records the sequence number and
counts the packet; the sequence `[1,2,4,5]` increases the missed counter by
exactly 1 in total; and the displayed loss percentage equals
`missed / (missed + total_received) * 100`. -/
theorem loss_latency_accounting :
    (∀ (m : MetricsState) (tHost : ℚ) (seq tMcu : ℤ),
      (metricsOnPkt m tHost seq tMcu).latMs =
        dequeAppend 600 m.latMs (max 0 ((tHost - (tMcu : ℚ) / 1000) * 1000)) ∧
      (metricsOnPkt m tHost seq tMcu).missed = m.missed +
        (match m.seqPrev with
         | some p => if 1 < (seq - p) % 65536 then (seq - p) % 65536 - 1 else 0
         | none => 0) ∧
      (metricsOnPkt m tHost seq tMcu).seqPrev = some seq ∧
      (metricsOnPkt m tHost seq tMcu).totalPkts = m.totalPkts + 1 ∧
      (m.latMs.length ≤ 600 → (metricsOnPkt m tHost seq tMcu).latMs.length ≤ 600)) ∧
    (runSeqs initMetrics [1, 2, 4, 5]).missed = 1 ∧
    (∀ m : MetricsState,
      lossPercent m = (m.missed : ℚ) / ((m.missed : ℚ) + (m.totalPkts : ℚ)) * 100) := by
  refine ⟨fun m tHost seq tMcu => ⟨rfl, ?_, rfl, rfl, fun h => ?_⟩, ?_, fun m => ?_⟩
  · cases hsp : m.seqPrev with
    | none => simp [metricsOnPkt, hsp]
    | some p =>
      simp only [metricsOnPkt, hsp]
      split_ifs <;> omega
  · exact dequeAppend_length_le m.latMs _ h (by norm_num)
  · norm_num [runSeqs, metricsOnPkt, initMetrics, dequeAppend]
  · unfold lossPercent
    ring

/-- Witness for C7: the bounded-history bound holds at a concrete packet on
fresh accumulators. -/
theorem loss_latency_accounting_witness :
    (metricsOnPkt initMetrics 1 5 2000).latMs.length ≤ 600 :=
  (loss_latency_accounting.1 initMetrics 1 5 2000).2.2.2.2 (by simp [initMetrics])

/-- C6 (amended): for a JSON line with both `bpm` and `samples`, the
producer-side parser of `BackendThread.run` (`src/unnamed/part_000`) takes
`seq`, `flags` and `t_mcu` from the JSON when present (setting its counter
to `seq + 1`), and when absent defaults `seq` to the thread's internally
incremented counter and `flags`/`t_mcu` to 0; the in-App raw-line parser of
`bmet_2922_ppg_gui1.py`, by contrast, defaults a missing `seq` to 0 (it has
no counter), with `flags`/`t_mcu` defaulting to 0 as well. -/
theorem packet_field_defaults :
    (∀ (counter : ℤ) (fs : List (String × JVal)) (a b c : ℚ),
      jGet fs "seq" = some (.jnum a) → jGet fs "flags" = some (.jnum b) →
      jGet fs "t_mcu" = some (.jnum c) →
      backendPacketFields counter fs =
        some (ratTrunc a, ratTrunc a + 1, ratTrunc b, ratTrunc c) ∧
      gui1PacketFields fs = some (ratTrunc a, ratTrunc b, ratTrunc c)) ∧
    (∀ (counter : ℤ) (fs : List (String × JVal)),
      jGet fs "seq" = none → jGet fs "flags" = none → jGet fs "t_mcu" = none →
      backendPacketFields counter fs = some (counter, counter + 1, 0, 0) ∧
      gui1PacketFields fs = some (0, 0, 0)) := by
  constructor
  · intro counter fs a b c h1 h2 h3
    constructor <;> simp [backendPacketFields, gui1PacketFields, h1, h2, h3, pyIntOfJ]
  · intro counter fs h1 h2 h3
    constructor <;> simp [backendPacketFields, gui1PacketFields, h1, h2, h3]

/-- Witness for C6: on an object carrying none of the three keys, the
backend parser with counter 7 yields `seq = 7` and advances to 8, the gui1
parser yields `seq = 0`. -/
theorem packet_field_defaults_witness :
    backendPacketFields 7 noSeqFields = some (7, 8, 0, 0) ∧
    gui1PacketFields noSeqFields = some (0, 0, 0) :=
  (packet_field_defaults.2 7 noSeqFields (by rfl) (by rfl) (by rfl))

/-- Counterexample to C6 as stated: the claim's single defaulting rule
("missing seq defaults to an internally incremented counter") fails at the
cited gui1 parser - on the same seq-less packet object the gui1 extraction
yields 0 regardless of any counter while the backend extraction with
counter 7 yields 7. -/
theorem packet_field_defaults_cx :
    gui1PacketFields noSeqFields = some (0, 0, 0) ∧
    backendPacketFields 7 noSeqFields = some (7, 8, 0, 0) ∧ (0 : ℤ) ≠ 7 :=
  ⟨by rfl, by rfl, by decide⟩

theorem startsWithBrace_cons {line : String} {cs : List Char}
    (h : line.toList = '{' :: cs) : startsWithBrace line = true := by
  simp only [startsWithBrace, show line.toList = '{' :: cs from h]
  rfl

theorem startsWithBrace_not {line : String}
    (h : line.toList.head? ≠ some '{') : startsWithBrace line = false := by
  simpa [startsWithBrace] using h

theorem splitComma_ne_nil (cs : List Char) : splitComma cs ≠ [] := by
  cases cs with
  | nil => simp [splitComma]
  | cons c cs =>
    by_cases hc : c = ','
    · subst hc; simp [splitComma]
    · simp only [splitComma, hc]
      split <;> simp

theorem dropWhile_append_singleton {p : Char → Bool} {a : Char} (ha : p a = false) :
    ∀ l : List Char, ∃ z, List.dropWhile p (l ++ [a]) = z ++ [a]
  | [] => ⟨[], by simp [List.dropWhile, ha]⟩
  | c :: l => by
    rw [List.cons_append, List.dropWhile_cons]
    by_cases hc : p c
    · rw [if_pos hc]
      exact dropWhile_append_singleton ha l
    · exact ⟨c :: l, by simp [hc]⟩

theorem stripChars_brace (cs : List Char) :
    ∃ u, stripChars ('{' :: cs) = '{' :: u := by
  unfold stripChars
  have h1 : List.dropWhile Char.isWhitespace ('{' :: cs) = '{' :: cs := by
    rw [List.dropWhile_cons, if_neg (by decide)]
  rw [h1, show ('{' :: cs).reverse = cs.reverse ++ ['{'] by simp]
  obtain ⟨z, hz⟩ := dropWhile_append_singleton (p := Char.isWhitespace)
    (a := '{') (by decide) cs.reverse
  rw [hz]
  exact ⟨z.reverse, by simp⟩

theorem pyFloat_brace (cs : List Char) : pyFloat (String.mk ('{' :: cs)) = none := by
  obtain ⟨u, hu⟩ := stripChars_brace cs
  have ht : (String.mk ('{' :: cs)).toList = '{' :: cs := rfl
  rw [pyFloat, ht, hu]
  simp [parseUnsigned]

/-- C3 (amended): in the App raw-line parser (`bmet_2922_ppg_gui.py`), a
line whose first character is `{` is resolved by the JSON path alone (the
result is independent of the float primitive, and JSON decode failure or a
missing `bpm` key yields ParseError, never a fall-through to the
bare-numeric path), while any other line is resolved by the bare-numeric
path alone (independent of the JSON primitive: the first comma segment is
parsed as a float, success yields a BpmEvent and failure ParseError).  In
`BackendReader._parse_line` (`gui_pulse_monitor.py`) JSON decoding is
instead attempted on every line with fall-through to a `ts,bpm,ppg` CSV
path; a `{`-line whose JSON decode fails still ends as ParseError (`None`),
because its first CSV segment starts with `{` and cannot parse as a float,
but a non-`{` line is parsed as a `ts,bpm,ppg` triple, not
first-segment-as-bpm. -/
theorem parser_precedence :
    (∀ (jload : String → Option JVal) (pf pf' : String → Option ℚ) (line : String)
      (cs : List Char), line.toList = '{' :: cs →
      parseRawLine jload pf line = parseRawLine jload pf' line) ∧
    (∀ (jload : String → Option JVal) (pf : String → Option ℚ) (line : String)
      (cs : List Char), line.toList = '{' :: cs → jload line = none →
      parseRawLine jload pf line = .perr) ∧
    (∀ (jload : String → Option JVal) (pf : String → Option ℚ) (line : String)
      (cs : List Char) (fs : List (String × JVal)), line.toList = '{' :: cs →
      jload line = some (.jobj fs) → jGet fs "bpm" = none →
      parseRawLine jload pf line = .perr) ∧
    (∀ (jload jload' : String → Option JVal) (pf : String → Option ℚ) (line : String),
      line.toList.head? ≠ some '{' →
      parseRawLine jload pf line = parseRawLine jload' pf line ∧
      parseRawLine jload pf line =
        (match pf (String.mk (firstSegment line.toList)) with
         | some b => RawResult.bpmEvt b
         | none => RawResult.perr)) ∧
    (∀ (jload : String → Option JVal) (line : String) (cs : List Char) (t0 now : ℚ),
      line.toList = '{' :: cs → jload line = none →
      parse_line jload line t0 now = none) := by
  refine ⟨?_, ?_, ?_, ?_, ?_⟩
  · intro jload pf pf' line cs h
    simp only [parseRawLine, startsWithBrace_cons h, if_true]
  · intro jload pf line cs h hj
    simp [parseRawLine, startsWithBrace_cons h, hj]
  · intro jload pf line cs fs h hj hb
    simp [parseRawLine, startsWithBrace_cons h, hj, hb]
  · intro jload jload' pf line h
    constructor <;> simp only [parseRawLine, startsWithBrace_not h, Bool.false_eq_true,
      if_false]
  · intro jload line cs t0 now hline hj
    simp only [parse_line, hj]
    rw [hline]
    obtain ⟨s, hsp⟩ : ∃ s, ∃ rest, splitComma ('{' :: cs) = ('{' :: s) :: rest := by
      have hne := splitComma_ne_nil cs
      simp only [splitComma, show ('{' : Char) ≠ ',' by decide]
      cases hsc : splitComma cs with
      | nil => exact absurd hsc hne
      | cons s rest => exact ⟨s, rest, by simp⟩
    obtain ⟨rest, hsp⟩ := hsp
    rw [hsp]
    obtain ⟨u, hu⟩ := stripChars_brace s
    simp only [List.map_cons, hu]
    cases hmr : rest.map stripChars with
    | nil => rfl
    | cons b tl =>
      cases tl with
      | nil => rfl
      | cons c tl2 => simp [pyFloat_brace]

/-- Witness for C3: a bare `{` line is a ParseError on the App parser, and
`72.4,9` parses its first comma segment into a BpmEvent of 72.4. -/
theorem parser_precedence_witness :
    parseRawLine jloadNone pyFloat "\x7b" = .perr ∧
    parseRawLine jloadNone pyFloat "72.4,9" = .bpmEvt (362 / 5) := by
  constructor
  · exact parser_precedence.2.1 jloadNone pyFloat "\x7b" [] rfl rfl
  · have h := (parser_precedence.2.2.2.1 jloadNone jloadNone pyFloat "72.4,9"
      (by decide)).2
    rw [h]
    norm_num +decide [firstSegment, pyFloat, stripChars, parseUnsigned, parseFracDigits,
      List.dropWhile, List.takeWhile, Char.isWhitespace, Char.isDigit,
      digitVal_c7, digitVal_c2, digitVal_c4]

/-- Counterexample to C3 as stated: on the line `1,2,3` (not JSON), the
claim's rule "split on comma and parse the first segment as a float,
yielding a BpmEvent on success" fails at the cited
`BackendReader._parse_line`, which instead reads the triple as
`ts,bpm,ppg`: the produced sample has bpm 2 (the second segment), not 1. -/
theorem parser_precedence_cx :
    parse_line jloadNone "1,2,3" 0 100 = some ⟨1, 2, 3⟩ ∧ (2 : ℚ) ≠ 1 := by
  constructor
  · norm_num +decide [parse_line, jloadNone, splitComma, stripChars, pyFloat,
      parseUnsigned, normalizeTs, List.dropWhile, Char.isWhitespace, Char.isDigit,
      digitVal_c1, digitVal_c2, digitVal_c3]
  · norm_num

/-- C5 (amended): a drained raw line that fails classification (JSON decode
failure, missing/unconvertible `bpm`, or bare-numeric failure) appends one
`"[PARSE] " + line[:120]` log entry, leaves `last_pkt_ts` untouched and
appends nothing to either buffer; however the post-event `_trim_buffers`
still runs (so only entries already older than `now - 15` can disappear,
every surviving entry coming from the prior state), and the drain continues
with the remaining events of the batch.  (A line that fails only at
waveform expansion - valid JSON whose `samples` value is not iterable - is
logged the same way but after the BPM append and watchdog update, see the
counterexample.) -/
theorem parse_error_atomicity (jload : String → Option JVal) (st : AppState)
    (line : String) (now : ℚ) (hgate : st.dropUntil ≤ now)
    (hperr : parseRawLine jload pyFloat (String.mk (stripChars line.toList)) = .perr) :
    pollEvent jload st now (.rawE line) =
      trimBuffers now
        { st with logs := st.logs ++
            ["[PARSE] " ++ String.mk ((stripChars line.toList).take 120)] } ∧
    (pollEvent jload st now (.rawE line)).lastPktTs = st.lastPktTs ∧
    (pollEvent jload st now (.rawE line)).logs =
      st.logs ++ ["[PARSE] " ++ String.mk ((stripChars line.toList).take 120)] ∧
    (∀ x ∈ (pollEvent jload st now (.rawE line)).ts, x ∈ st.ts) ∧
    (∀ x ∈ (pollEvent jload st now (.rawE line)).bpm, x ∈ st.bpm) ∧
    (∀ x ∈ (pollEvent jload st now (.rawE line)).waveT, x ∈ st.waveT) ∧
    (∀ y ∈ (pollEvent jload st now (.rawE line)).waveY, y ∈ st.waveY) ∧
    (∀ rest : List (ℚ × QEvent),
      pollBatch jload ((now, .rawE line) :: rest) st =
        pollBatch jload rest (pollEvent jload st now (.rawE line))) := by
  have hg : ¬now < st.dropUntil := not_lt.mpr hgate
  refine ⟨?_, ?_, ?_, ?_, ?_, ?_, ?_, fun rest => rfl⟩ <;>
    simp only [pollEvent, if_neg hg, hperr, trimBuffers]
  · rfl
  · rfl
  · intro x hx
    rw [trimPair_fst] at hx
    exact mem_dropWhile_subset hx
  · intro x hx
    exact trimPair_snd_mem hx
  · intro x hx
    rw [trimPair_fst] at hx
    exact mem_dropWhile_subset hx
  · intro y hy
    exact trimPair_snd_mem hy

/-- Witness for C5 at a concrete bad line on the fresh state: the log gains
the truncated line and `last_pkt_ts` is unchanged. -/
theorem parse_error_atomicity_witness :
    (pollEvent jloadNone initState 20 (.rawE "abc")).lastPktTs =
      initState.lastPktTs :=
  (parse_error_atomicity jloadNone initState "abc" 20
    (by norm_num [initState])
    (by norm_num +decide [parseRawLine, startsWithBrace, jloadNone, stripChars,
      firstSegment, pyFloat, parseUnsigned, List.dropWhile, List.takeWhile,
      Char.isWhitespace, Char.isDigit])).2.1

/-- Counterexample to C5 as stated: (i) a ParseError event still runs the
trim, so the aged entry (timestamp 1) disappears from the BPM buffer while
the line `abc` is being rejected at clock 20; (ii) the valid-JSON line
`{"bpm":70,"samples":5}` is logged as a parse failure (its `samples` value
is not iterable), yet the BPM buffer gains the entry stamped 20 and
`last_pkt_ts` moves from 0 to 20. -/
theorem parse_error_mutation_cx :
    (pollEvent jloadNone agedState 20 (.rawE "abc")).ts = [] ∧
    agedState.ts = [1] ∧
    (pollEvent jloadNone agedState 20 (.rawE "abc")).logs =
      ["GUI started", "[PARSE] abc"] ∧
    (pollEvent jloadBadSamples initState 20 (.rawE badSamplesLine)).ts = [20] ∧
    (pollEvent jloadBadSamples initState 20 (.rawE badSamplesLine)).lastPktTs = 20 ∧
    (pollEvent jloadBadSamples initState 20 (.rawE badSamplesLine)).logs =
      ["GUI started", "[PARSE] " ++ badSamplesLine] ∧
    initState.lastPktTs = 0 := by
  refine ⟨?_, rfl, ?_, ?_, ?_, ?_, rfl⟩ <;>
    norm_num +decide [pollEvent, parseRawLine, startsWithBrace, jloadNone,
      jloadBadSamples, badSamplesLine, jGet, pyFloatOfJ, pyIterate, trimBuffers,
      trimPair, initState, agedState, stripChars, pyFloat, parseUnsigned,
      firstSegment, historySeconds, List.dropWhile, List.takeWhile, List.find?,
      Char.isWhitespace, Char.isDigit]
